import Mathlib

/-!
Verification of the resilience core of the assistant backend:
the circuit breaker state machine (core/circuit_breaker.py), the sliding
window rate limiter (core/rate_limiter.py), and the exponential-backoff
retry loops (services/gemini_service.py, proxy/main.py).

Times (`time.time()` values) are modelled as rationals; machine integers
in the source are plain Python ints, modelled as `Nat`.
-/

namespace Asistente

/-! ## Exception classes

The source dispatches on Python exception classes: `asyncio.TimeoutError`
is caught first, then `self.config.expected_exception`, then `Exception`.
We model the classes that occur at the call sites; every modelled class is
a subclass of `Exception` (classes deriving only from `BaseException`
never reach the `except Exception` ladder). -/

inductive ExcClass where
  | ExceptionCls
  | ValueErrorCls
  | KeyErrorCls
  | HTTPStatusErrorCls
  | TimeoutExceptionCls
deriving DecidableEq, Repr

/-- Python `isinstance(e, cls)` for the modelled classes: a class matches
itself, and every modelled class is a subclass of `Exception`. -/
def ExcClass.isSubclassOf (c expected : ExcClass) : Bool :=
  c == expected || expected == ExcClass.ExceptionCls

/-! ## Circuit breaker (core/circuit_breaker.py) -/

inductive CircuitState where
  | CLOSED
  | OPEN
  | HALF_OPEN
deriving DecidableEq, Repr

/-- `CircuitBreakerConfig` dataclass (circuit_breaker.py lines 27-34). -/
structure CircuitBreakerConfig where
  failure_threshold : Nat
  recovery_timeout : Nat
  expected_exception : ExcClass
  timeout : Nat
  success_threshold : Nat
deriving DecidableEq, Repr

/-- The dataclass field defaults of `CircuitBreakerConfig`. -/
def CircuitBreakerConfig.default : CircuitBreakerConfig :=
  { failure_threshold := 5
    recovery_timeout := 60
    expected_exception := ExcClass.ExceptionCls
    timeout := 30
    success_threshold := 3 }

/-- The mutable state of a `CircuitBreaker` instance. -/
structure CircuitBreaker where
  name : String
  config : CircuitBreakerConfig
  state : CircuitState
  failure_count : Nat
  success_count : Nat
  last_failure_time : ℚ
  call_count : Nat
  success_total : Nat
  failure_total : Nat
deriving DecidableEq, Repr

/-- `CircuitBreaker.__init__` (lines 42-51). -/
def CircuitBreaker.init (name : String) (config : CircuitBreakerConfig) : CircuitBreaker :=
  { name := name
    config := config
    state := CircuitState.CLOSED
    failure_count := 0
    success_count := 0
    last_failure_time := 0
    call_count := 0
    success_total := 0
    failure_total := 0 }

/-- `CircuitBreaker._on_success` (lines 151-168). -/
def CircuitBreaker.on_success (cb : CircuitBreaker) : CircuitBreaker :=
  let cb := { cb with success_total := cb.success_total + 1 }
  if cb.state = CircuitState.HALF_OPEN then
    let cb := { cb with success_count := cb.success_count + 1 }
    if cb.config.success_threshold ≤ cb.success_count then
      { cb with state := CircuitState.CLOSED, failure_count := 0 }
    else cb
  else if cb.state = CircuitState.CLOSED then
    { cb with failure_count := 0 }
  else cb

/-- `CircuitBreaker._on_failure` (lines 170-192); `now` is `time.time()`. -/
def CircuitBreaker.on_failure (cb : CircuitBreaker) (now : ℚ) : CircuitBreaker :=
  let cb := { cb with
    failure_total := cb.failure_total + 1
    failure_count := cb.failure_count + 1
    last_failure_time := now }
  if cb.state = CircuitState.CLOSED then
    if cb.config.failure_threshold ≤ cb.failure_count then
      { cb with state := CircuitState.OPEN }
    else cb
  else if cb.state = CircuitState.HALF_OPEN then
    { cb with state := CircuitState.OPEN }
  else cb

/-- Outcome of executing the wrapped operation under `asyncio.wait_for`:
it returns, the deadline fires, or it raises an exception of some class. -/
inductive Outcome where
  | success
  | timeout
  | exc (c : ExcClass)
deriving DecidableEq, Repr

/-- The context dictionary attached to `CircuitBreakerOpenError`
(lines 95-100). -/
structure OpenErrorContext where
  circuit_name : String
  state : CircuitState
  failure_count : Nat
  time_until_retry : ℚ
deriving DecidableEq, Repr

/-- What `CircuitBreaker.call` does from the caller's point of view:
return the result, raise `CircuitBreakerOpenError`, raise
`CircuitBreakerTimeoutError`, or re-raise the operation's exception
(counted or not against the breaker). -/
inductive CallResult where
  | ok
  | circuitOpen (ctx : OpenErrorContext)
  | timeoutErr (circuit_name : String) (timeout : Nat)
  | reraisedCounted (c : ExcClass)
  | reraisedUncounted (c : ExcClass)
deriving DecidableEq, Repr

/-- Result of one `CircuitBreaker.call`: the new breaker state, what the
caller observes, and whether the wrapped operation was invoked. -/
structure CallOutput where
  cb : CircuitBreaker
  result : CallResult
  invoked : Bool
deriving DecidableEq, Repr

/-- The `try`/`except` ladder of `CircuitBreaker.call` (lines 103-149):
run the operation with a deadline, then dispatch on the outcome. -/
def CircuitBreaker.execute (cb : CircuitBreaker) (now : ℚ) (o : Outcome) : CallOutput :=
  match o with
  | Outcome.success =>
      { cb := cb.on_success, result := CallResult.ok, invoked := true }
  | Outcome.timeout =>
      { cb := cb.on_failure now
        result := CallResult.timeoutErr cb.name cb.config.timeout
        invoked := true }
  | Outcome.exc c =>
      if c.isSubclassOf cb.config.expected_exception then
        { cb := cb.on_failure now, result := CallResult.reraisedCounted c, invoked := true }
      else
        { cb := cb, result := CallResult.reraisedUncounted c, invoked := true }

/-- The OPEN-to-HALF_OPEN transition taken at call time (lines 80-81). -/
def CircuitBreaker.toHalfOpen (cb : CircuitBreaker) : CircuitBreaker :=
  { cb with state := CircuitState.HALF_OPEN, success_count := 0 }

/-- `CircuitBreaker.call` (lines 59-149); `now` is `time.time()` and `o`
is the outcome the wrapped operation would have if invoked. -/
def CircuitBreaker.call (cb : CircuitBreaker) (now : ℚ) (o : Outcome) : CallOutput :=
  let cb := { cb with call_count := cb.call_count + 1 }
  if cb.state = CircuitState.OPEN then
    if (cb.config.recovery_timeout : ℚ) ≤ now - cb.last_failure_time then
      cb.toHalfOpen.execute now o
    else
      { cb := cb
        result := CallResult.circuitOpen
          { circuit_name := cb.name
            state := cb.state
            failure_count := cb.failure_count
            time_until_retry := (cb.config.recovery_timeout : ℚ) - (now - cb.last_failure_time) }
        invoked := false }
  else
    cb.execute now o

/-- Folding `_on_failure` over a list of failure times. -/
def CircuitBreaker.onFailures (cb : CircuitBreaker) : List ℚ → CircuitBreaker
  | [] => cb
  | t :: ts => (cb.on_failure t).onFailures ts

/-- A sequence of calls: each entry is the `time.time()` value and the
outcome the wrapped operation would have; returns the final breaker and
the observed results, in order. -/
def runCalls (cb : CircuitBreaker) : List (ℚ × Outcome) → CircuitBreaker × List CallResult
  | [] => (cb, [])
  | e :: rest =>
      let out := cb.call e.1 e.2
      let r := runCalls out.cb rest
      (r.1, out.result :: r.2)

def CallResult.isOk : CallResult → Bool
  | CallResult.ok => true
  | _ => false

def CallResult.isCountedFailure : CallResult → Bool
  | CallResult.timeoutErr _ _ => true
  | CallResult.reraisedCounted _ => true
  | _ => false

def CallResult.isRejected : CallResult → Bool
  | CallResult.circuitOpen _ => true
  | _ => false

def CallResult.isUncounted : CallResult → Bool
  | CallResult.reraisedUncounted _ => true
  | _ => false

/-- A config with `failure_threshold = 1`, used to exhibit a trace on
which `total_calls = total_successes + total_failures` fails. -/
def cfgX : CircuitBreakerConfig :=
  { failure_threshold := 1, recovery_timeout := 60,
    expected_exception := ExcClass.ExceptionCls, timeout := 30, success_threshold := 1 }

/-- One counted failure at time 0, then a call at time 1 that is rejected
while the circuit is OPEN. -/
def traceX : List (ℚ × Outcome) := [(0, Outcome.exc ExcClass.ValueErrorCls), (1, Outcome.success)]

/-- The breaker after running `traceX` from a fresh instance. -/
def finalX : CircuitBreaker := (runCalls (CircuitBreaker.init "x" cfgX) traceX).1

/-! ## Rate limiter (core/rate_limiter.py) -/

/-- The mutable state of a `RateLimiter` instance: `__init__`
(rate_limiter.py lines 12-23) stores the cap, the window length, and the
deque of admission timestamps (oldest first). -/
structure RateLimiter where
  max_requests : Nat
  time_window : Nat
  requests : List ℚ
deriving DecidableEq, Repr

/-- `RateLimiter.__init__`: the deque starts empty. -/
def RateLimiter.init (max_requests time_window : Nat) : RateLimiter :=
  { max_requests := max_requests, time_window := time_window, requests := [] }

/-- `RateLimiter.acquire` (lines 25-60): pop expired timestamps from the
front of the deque (`while requests and requests[0] <= now - time_window`),
then admit iff the retained count is below the cap, appending `now` on
admission. -/
def RateLimiter.acquire (rl : RateLimiter) (now : ℚ) : RateLimiter × Bool :=
  let purged := rl.requests.dropWhile (fun t => decide (t ≤ now - (rl.time_window : ℚ)))
  if purged.length < rl.max_requests then
    ({ rl with requests := purged ++ [now] }, true)
  else
    ({ rl with requests := purged }, false)

/-- Run a sequence of `acquire` calls at the given times, recording each
call's time and admission flag. -/
def RateLimiter.runAcquire (rl : RateLimiter) : List ℚ → RateLimiter × List (ℚ × Bool)
  | [] => (rl, [])
  | t :: ts =>
      let s := rl.acquire t
      let r := s.1.runAcquire ts
      (r.1, (t, s.2) :: r.2)

/-- The admission times of the calls that returned `true`. -/
def admittedTimes (rs : List (ℚ × Bool)) : List ℚ :=
  (rs.filter (fun e => e.2)).map (fun e => e.1)

/-- Membership of a time in the rolling interval `(a, a + w]` of length
`w` seconds, used to state the sliding-window cap. -/
def inWindow (a : ℚ) (w : Nat) (s : ℚ) : Bool :=
  decide (a < s) && decide (s ≤ a + (w : ℚ))

/-! ## Retry with exponential backoff
(services/gemini_service.py `_call_gemini_with_retry`,
proxy/main.py `forward_webhook_with_retry`) -/

/-- Outcome of one attempt's HTTP call (after `raise_for_status`):
success, `httpx.TimeoutException`, `httpx.HTTPStatusError` with a status
code, or some other exception. -/
inductive AttemptResult where
  | ok
  | timeoutE
  | httpStatus (code : Nat)
  | otherExc
deriving DecidableEq, Repr

/-- What the retry wrapper surfaces to its caller: the successful
attempt's result, or a terminal error wrapping the last observed failure
and stating an attempt count (`GeminiServiceError` in the service, the
`status: failed` payload in the proxy). -/
inductive RetrySurface where
  | success (attempt : Nat)
  | failure (last : Option AttemptResult) (attempts : Nat)
deriving DecidableEq, Repr

/-- Observable trace of one retry-wrapper run: how many attempts were
invoked, the sleeps inserted (in order, in seconds), and what was
surfaced. -/
structure RetryTrace where
  invocations : Nat
  waits : List Nat
  surface : RetrySurface
deriving DecidableEq, Repr

/-- gemini_service.py line 237: `400 <= status < 500 and status != 429`
breaks out of the retry loop. -/
def nonRetryableGemini (code : Nat) : Bool :=
  decide (400 ≤ code) && decide (code < 500) && (code != 429)

/-- proxy/main.py line 137: `400 <= status < 500 and status not in
[429, 503]` breaks out of the retry loop. -/
def nonRetryableProxy (code : Nat) : Bool :=
  decide (400 ≤ code) && decide (code < 500) && (code != 429) && (code != 503)

/-- An attempt outcome that the loop catches and retries (with respect
to a given non-retryable classification): a timeout, an HTTP status not
classified non-retryable, or any other exception. -/
def isRetryableFailure (nonRetry : Nat → Bool) : AttemptResult → Bool
  | AttemptResult.ok => false
  | AttemptResult.timeoutE => true
  | AttemptResult.httpStatus c => !(nonRetry c)
  | AttemptResult.otherExc => true

/-- The retry `for` loop from attempt `i` with `remaining` iterations
left (`remaining = maxA - i` at entry): sleep `baseDelay * 2 ^ i` when
`i > 0`, run attempt `i`, return on success, break on a non-retryable
HTTP status, otherwise record the exception and continue; when the loop
ends, surface a terminal failure wrapping the last exception and stating
`maxA` attempts. -/
def retryFrom (nonRetry : Nat → Bool) (baseDelay : Nat) (f : Nat → AttemptResult)
    (maxA : Nat) : Nat → Nat → Option AttemptResult → RetryTrace
  | 0, _, lastE =>
      { invocations := 0, waits := [], surface := RetrySurface.failure lastE maxA }
  | remaining + 1, i, _ =>
      let ws : List Nat := if 0 < i then [baseDelay * 2 ^ i] else []
      match f i with
      | AttemptResult.ok =>
          { invocations := 1, waits := ws, surface := RetrySurface.success i }
      | AttemptResult.timeoutE =>
          let rest := retryFrom nonRetry baseDelay f maxA remaining (i + 1)
            (some AttemptResult.timeoutE)
          { invocations := rest.invocations + 1, waits := ws ++ rest.waits,
            surface := rest.surface }
      | AttemptResult.httpStatus c =>
          if nonRetry c then
            { invocations := 1, waits := ws,
              surface := RetrySurface.failure (some (AttemptResult.httpStatus c)) maxA }
          else
            let rest := retryFrom nonRetry baseDelay f maxA remaining (i + 1)
              (some (AttemptResult.httpStatus c))
            { invocations := rest.invocations + 1, waits := ws ++ rest.waits,
              surface := rest.surface }
      | AttemptResult.otherExc =>
          let rest := retryFrom nonRetry baseDelay f maxA remaining (i + 1)
            (some AttemptResult.otherExc)
          { invocations := rest.invocations + 1, waits := ws ++ rest.waits,
            surface := rest.surface }

/-- A whole retry-wrapper run: start at attempt 0 with no recorded
exception. -/
def retryRun (nonRetry : Nat → Bool) (baseDelay maxAttempts : Nat)
    (f : Nat → AttemptResult) : RetryTrace :=
  retryFrom nonRetry baseDelay f maxAttempts maxAttempts 0 none

/-- `GeminiService._call_gemini_with_retry` (gemini_service.py lines
162-253): `self.max_retries = 3`, `self.base_delay = 2`. -/
def call_gemini_with_retry (f : Nat → AttemptResult) : RetryTrace :=
  retryRun nonRetryableGemini 2 3 f

/-- `forward_webhook_with_retry` (proxy/main.py lines 48-161):
`BASE_DELAY = 1`, default `max_retries = MAX_RETRIES = 5`. -/
def forward_webhook_with_retry (max_retries : Nat) (f : Nat → AttemptResult) : RetryTrace :=
  retryRun nonRetryableProxy 1 max_retries f

/-! ## Circuit breaker registry (core/circuit_breaker.py lines 214-291) -/

/-- `CircuitBreakerManager`: a keyed store of breakers. -/
structure CircuitBreakerManager where
  breakers : List (String × CircuitBreaker)
deriving DecidableEq, Repr

/-- `CircuitBreakerManager.get_breaker` (lines 222-238): create the
breaker on first lookup (with the supplied config, or the dataclass
default config when none is given) and return the stored entry. -/
def CircuitBreakerManager.get_breaker (m : CircuitBreakerManager) (name : String)
    (config : Option CircuitBreakerConfig) : CircuitBreakerManager × CircuitBreaker :=
  match m.breakers.lookup name with
  | some b => (m, b)
  | none =>
      let cfg := config.getD CircuitBreakerConfig.default
      let b := CircuitBreaker.init name cfg
      ({ breakers := m.breakers ++ [(name, b)] }, b)

/-- Config built by `get_gemini_circuit_breaker` (lines 250-258);
`expected_exception` is left at its dataclass default. -/
def geminiBreakerConfig : CircuitBreakerConfig :=
  { CircuitBreakerConfig.default with
    failure_threshold := 3, recovery_timeout := 30, timeout := 30, success_threshold := 2 }

/-- Config built by `get_telegram_circuit_breaker` (lines 261-269). -/
def telegramBreakerConfig : CircuitBreakerConfig :=
  { CircuitBreakerConfig.default with
    failure_threshold := 5, recovery_timeout := 60, timeout := 15, success_threshold := 3 }

/-- Config built by `get_gmail_circuit_breaker` (lines 272-280). -/
def gmailBreakerConfig : CircuitBreakerConfig :=
  { CircuitBreakerConfig.default with
    failure_threshold := 3, recovery_timeout := 120, timeout := 30, success_threshold := 2 }

/-- Config built by `get_calendar_circuit_breaker` (lines 283-291). -/
def calendarBreakerConfig : CircuitBreakerConfig :=
  { CircuitBreakerConfig.default with
    failure_threshold := 3, recovery_timeout := 120, timeout := 30, success_threshold := 2 }

/-- `get_gemini_circuit_breaker`, acting on an explicit manager state. -/
def get_gemini_circuit_breaker (m : CircuitBreakerManager) :
    CircuitBreakerManager × CircuitBreaker :=
  m.get_breaker "gemini_api" (some geminiBreakerConfig)

/-- `get_telegram_circuit_breaker`, acting on an explicit manager state. -/
def get_telegram_circuit_breaker (m : CircuitBreakerManager) :
    CircuitBreakerManager × CircuitBreaker :=
  m.get_breaker "telegram_api" (some telegramBreakerConfig)

/-- `get_gmail_circuit_breaker`, acting on an explicit manager state. -/
def get_gmail_circuit_breaker (m : CircuitBreakerManager) :
    CircuitBreakerManager × CircuitBreaker :=
  m.get_breaker "gmail_api" (some gmailBreakerConfig)

/-- `get_calendar_circuit_breaker`, acting on an explicit manager state. -/
def get_calendar_circuit_breaker (m : CircuitBreakerManager) :
    CircuitBreakerManager × CircuitBreaker :=
  m.get_breaker "calendar_api" (some calendarBreakerConfig)

/-! ### Step lemmas for `_on_failure` and `_on_success` -/

theorem on_failure_failure_count (cb : CircuitBreaker) (t : ℚ) :
    (cb.on_failure t).failure_count = cb.failure_count + 1 := by
  simp only [CircuitBreaker.on_failure]
  split
  · split <;> rfl
  · split <;> rfl

theorem on_failure_failure_total (cb : CircuitBreaker) (t : ℚ) :
    (cb.on_failure t).failure_total = cb.failure_total + 1 := by
  simp only [CircuitBreaker.on_failure]
  split
  · split <;> rfl
  · split <;> rfl

theorem on_failure_last_failure_time (cb : CircuitBreaker) (t : ℚ) :
    (cb.on_failure t).last_failure_time = t := by
  simp only [CircuitBreaker.on_failure]
  split
  · split <;> rfl
  · split <;> rfl

theorem on_failure_success_total (cb : CircuitBreaker) (t : ℚ) :
    (cb.on_failure t).success_total = cb.success_total := by
  simp only [CircuitBreaker.on_failure]
  split
  · split <;> rfl
  · split <;> rfl

theorem on_failure_config (cb : CircuitBreaker) (t : ℚ) :
    (cb.on_failure t).config = cb.config := by
  simp only [CircuitBreaker.on_failure]
  split
  · split <;> rfl
  · split <;> rfl

theorem on_failure_success_count (cb : CircuitBreaker) (t : ℚ) :
    (cb.on_failure t).success_count = cb.success_count := by
  simp only [CircuitBreaker.on_failure]
  split
  · split <;> rfl
  · split <;> rfl

theorem on_failure_state_closed (cb : CircuitBreaker) (t : ℚ)
    (h : cb.state = CircuitState.CLOSED) :
    (cb.on_failure t).state =
      if cb.config.failure_threshold ≤ cb.failure_count + 1 then CircuitState.OPEN
      else CircuitState.CLOSED := by
  by_cases hth : cb.config.failure_threshold ≤ cb.failure_count + 1 <;>
    simp [CircuitBreaker.on_failure, h, hth]

theorem on_failure_state_half_open (cb : CircuitBreaker) (t : ℚ)
    (h : cb.state = CircuitState.HALF_OPEN) :
    (cb.on_failure t).state = CircuitState.OPEN := by
  simp [CircuitBreaker.on_failure, h]

theorem on_success_success_total (cb : CircuitBreaker) :
    cb.on_success.success_total = cb.success_total + 1 := by
  simp only [CircuitBreaker.on_success]
  split
  · split <;> rfl
  · split <;> rfl

theorem on_success_failure_total (cb : CircuitBreaker) :
    cb.on_success.failure_total = cb.failure_total := by
  simp only [CircuitBreaker.on_success]
  split
  · split <;> rfl
  · split <;> rfl

theorem on_success_config (cb : CircuitBreaker) :
    cb.on_success.config = cb.config := by
  simp only [CircuitBreaker.on_success]
  split
  · split <;> rfl
  · split <;> rfl

theorem on_success_closed (cb : CircuitBreaker) (h : cb.state = CircuitState.CLOSED) :
    cb.on_success.state = CircuitState.CLOSED ∧ cb.on_success.failure_count = 0 ∧
      cb.on_success.success_count = cb.success_count := by
  simp [CircuitBreaker.on_success, h]

theorem on_success_half_open (cb : CircuitBreaker) (h : cb.state = CircuitState.HALF_OPEN) :
    cb.on_success.success_count = cb.success_count + 1 ∧
    cb.on_success.state =
      (if cb.config.success_threshold ≤ cb.success_count + 1 then CircuitState.CLOSED
       else CircuitState.HALF_OPEN) ∧
    (cb.config.success_threshold ≤ cb.success_count + 1 → cb.on_success.failure_count = 0) := by
  by_cases hth : cb.config.success_threshold ≤ cb.success_count + 1 <;>
    simp [CircuitBreaker.on_success, h, hth]

theorem onFailures_append (l1 l2 : List ℚ) :
    ∀ cb : CircuitBreaker, cb.onFailures (l1 ++ l2) = (cb.onFailures l1).onFailures l2 := by
  induction l1 with
  | nil => intro cb; rfl
  | cons t ts ih => intro cb; simp only [List.cons_append, CircuitBreaker.onFailures]; exact ih _

/-- In CLOSED with a fresh streak, `k` failures with `k < failure_threshold`
leave the breaker CLOSED with streak `k`. -/
theorem onFailures_closed_below_threshold (ts : List ℚ) :
    ∀ cb : CircuitBreaker, cb.state = CircuitState.CLOSED →
      cb.failure_count + ts.length < cb.config.failure_threshold →
      (cb.onFailures ts).state = CircuitState.CLOSED ∧
      (cb.onFailures ts).failure_count = cb.failure_count + ts.length ∧
      (cb.onFailures ts).config = cb.config := by
  induction ts with
  | nil => intro cb h _; exact ⟨h, by simp [CircuitBreaker.onFailures], rfl⟩
  | cons t ts ih =>
      intro cb h hlt
      have hstep : (cb.on_failure t).state = CircuitState.CLOSED := by
        rw [on_failure_state_closed cb t h]
        have : ¬ cb.config.failure_threshold ≤ cb.failure_count + 1 := by
          simp only [List.length_cons] at hlt; omega
        simp [this]
      have hcfg := on_failure_config cb t
      have hcnt := on_failure_failure_count cb t
      have hrec := ih (cb.on_failure t) hstep (by
        rw [hcnt, hcfg]; simp only [List.length_cons] at hlt; omega)
      simp only [CircuitBreaker.onFailures]
      refine ⟨hrec.1, ?_, by rw [hrec.2.2, hcfg]⟩
      rw [hrec.2.1, hcnt]; simp only [List.length_cons]; omega

/-- In CLOSED with a fresh streak, the `failure_threshold`-th consecutive
failure opens the circuit. -/
theorem onFailures_closed_reach_threshold (ts : List ℚ) (cb : CircuitBreaker)
    (h : cb.state = CircuitState.CLOSED) (h0 : cb.failure_count = 0)
    (h1 : 1 ≤ cb.config.failure_threshold)
    (hlen : ts.length = cb.config.failure_threshold) :
    (cb.onFailures ts).state = CircuitState.OPEN := by
  rcases List.eq_nil_or_concat ts with rfl | ⟨ts0, t, rfl⟩
  · simp at hlen; omega
  · rw [List.concat_eq_append] at hlen ⊢
    have hlen0 : ts0.length + 1 = cb.config.failure_threshold := by
      simpa using hlen
    have hpre := onFailures_closed_below_threshold ts0 cb h (by omega)
    rw [onFailures_append ts0 [t] cb]
    show ((cb.onFailures ts0).on_failure t).state = CircuitState.OPEN
    rw [on_failure_state_closed _ t hpre.1, hpre.2.1, hpre.2.2, h0]
    simp [hlen0.symm]

/-- In HALF_OPEN with a fresh probe streak, `k < success_threshold`
successes keep the breaker HALF_OPEN with streak `k`. -/
theorem iterate_success_half_open (k : Nat) :
    ∀ cb : CircuitBreaker, cb.state = CircuitState.HALF_OPEN →
      cb.success_count + k < cb.config.success_threshold →
      (CircuitBreaker.on_success^[k] cb).state = CircuitState.HALF_OPEN ∧
      (CircuitBreaker.on_success^[k] cb).success_count = cb.success_count + k ∧
      (CircuitBreaker.on_success^[k] cb).config = cb.config := by
  induction k with
  | zero => intro cb h _; exact ⟨h, by simp, rfl⟩
  | succ k ih =>
      intro cb h hlt
      rw [Function.iterate_succ_apply]
      obtain ⟨hc, hs, hf⟩ := on_success_half_open cb h
      have hstep : cb.on_success.state = CircuitState.HALF_OPEN := by
        rw [hs]; have : ¬ cb.config.success_threshold ≤ cb.success_count + 1 := by omega
        simp [this]
      have hcfg := on_success_config cb
      have hrec := ih cb.on_success hstep (by rw [hc, hcfg]; omega)
      exact ⟨hrec.1, by rw [hrec.2.1, hc]; omega, by rw [hrec.2.2, hcfg]⟩

/-- In HALF_OPEN with a fresh probe streak, the `success_threshold`-th
consecutive success closes the circuit and resets the failure streak. -/
theorem iterate_success_closes (cb : CircuitBreaker)
    (h : cb.state = CircuitState.HALF_OPEN) (h0 : cb.success_count = 0)
    (h1 : 1 ≤ cb.config.success_threshold) :
    (CircuitBreaker.on_success^[cb.config.success_threshold] cb).state = CircuitState.CLOSED ∧
    (CircuitBreaker.on_success^[cb.config.success_threshold] cb).failure_count = 0 := by
  obtain ⟨k, hk⟩ : ∃ k, cb.config.success_threshold = k + 1 := ⟨_, (Nat.succ_pred_eq_of_pos h1).symm⟩
  rw [hk, Function.iterate_succ_apply']
  have hpre := iterate_success_half_open k cb h (by omega)
  obtain ⟨hc, hs, hf⟩ := on_success_half_open _ hpre.1
  have hreach : cb.config.success_threshold ≤
      (CircuitBreaker.on_success^[k] cb).success_count + 1 := by
    rw [hpre.2.1, hpre.2.2] at *; omega
  rw [hpre.2.2] at hs hf
  constructor
  · rw [hs]; simp [hreach]
  · exact hf hreach

/-! ### Claim C1 -/

/-- C1: for every config, a breaker that is CLOSED transitions to OPEN on a
failure exactly when the consecutive-failure streak reaches
`failure_threshold` (never before; from a fresh streak, fewer than
`failure_threshold` failures leave it CLOSED and the threshold-th opens
it), and any intervening success resets the streak to zero; from
HALF_OPEN, exactly `success_threshold` consecutive successes with no
intervening failure close the circuit with the failure streak reset to
zero, while any single failure in HALF_OPEN immediately reopens it,
refreshes the failure timestamp, and the success streak is discarded
(the next entry into HALF_OPEN starts the probe streak at zero). -/
theorem circuit_breaker_transition_invariant (cb : CircuitBreaker) (t : ℚ) :
    (cb.state = CircuitState.CLOSED →
      (((cb.on_failure t).state = CircuitState.OPEN) ↔
        cb.config.failure_threshold ≤ cb.failure_count + 1) ∧
      (cb.on_failure t).failure_count = cb.failure_count + 1) ∧
    (cb.state = CircuitState.CLOSED →
      cb.on_success.failure_count = 0 ∧ cb.on_success.state = CircuitState.CLOSED) ∧
    (cb.state = CircuitState.CLOSED → cb.failure_count = 0 →
      ∀ ts : List ℚ, ts.length < cb.config.failure_threshold →
        (cb.onFailures ts).state = CircuitState.CLOSED ∧
        (cb.onFailures ts).failure_count = ts.length) ∧
    (cb.state = CircuitState.CLOSED → cb.failure_count = 0 →
      ∀ ts : List ℚ, 1 ≤ cb.config.failure_threshold →
        ts.length = cb.config.failure_threshold →
        (cb.onFailures ts).state = CircuitState.OPEN) ∧
    (cb.state = CircuitState.HALF_OPEN →
      ((cb.on_success.state = CircuitState.CLOSED) ↔
        cb.config.success_threshold ≤ cb.success_count + 1) ∧
      (cb.on_success.state = CircuitState.CLOSED → cb.on_success.failure_count = 0)) ∧
    (cb.state = CircuitState.HALF_OPEN → cb.success_count = 0 →
      (∀ k, k < cb.config.success_threshold →
        (CircuitBreaker.on_success^[k] cb).state = CircuitState.HALF_OPEN ∧
        (CircuitBreaker.on_success^[k] cb).success_count = k) ∧
      (1 ≤ cb.config.success_threshold →
        (CircuitBreaker.on_success^[cb.config.success_threshold] cb).state =
          CircuitState.CLOSED ∧
        (CircuitBreaker.on_success^[cb.config.success_threshold] cb).failure_count = 0)) ∧
    (cb.state = CircuitState.HALF_OPEN →
      (cb.on_failure t).state = CircuitState.OPEN ∧
      (cb.on_failure t).last_failure_time = t ∧
      (cb.on_failure t).toHalfOpen.success_count = 0) := by
  refine ⟨?_, ?_, ?_, ?_, ?_, ?_, ?_⟩
  · intro h
    refine ⟨?_, on_failure_failure_count cb t⟩
    rw [on_failure_state_closed cb t h]
    by_cases hth : cb.config.failure_threshold ≤ cb.failure_count + 1 <;> simp [hth]
  · intro h
    obtain ⟨h1, h2, _⟩ := on_success_closed cb h
    exact ⟨h2, h1⟩
  · intro h h0 ts hts
    have := onFailures_closed_below_threshold ts cb h (by omega)
    exact ⟨this.1, by rw [this.2.1, h0]; omega⟩
  · intro h h0 ts h1 hlen
    exact onFailures_closed_reach_threshold ts cb h h0 h1 hlen
  · intro h
    obtain ⟨hc, hs, hf⟩ := on_success_half_open cb h
    refine ⟨?_, hf ∘ ?_⟩
    · rw [hs]; by_cases hth : cb.config.success_threshold ≤ cb.success_count + 1 <;> simp [hth]
    · intro hcl
      rw [hs] at hcl
      by_cases hth : cb.config.success_threshold ≤ cb.success_count + 1
      · exact hth
      · simp [hth] at hcl
  · intro h h0
    constructor
    · intro k hk
      have := iterate_success_half_open k cb h (by omega)
      exact ⟨this.1, by rw [this.2.1, h0]; omega⟩
    · intro h1
      exact iterate_success_closes cb h h0 h1
  · intro h
    exact ⟨on_failure_state_half_open cb t h, on_failure_last_failure_time cb t, rfl⟩

/-- Witness for C1 at a concrete breaker: with `failure_threshold = 3`,
two failures leave the circuit CLOSED and three open it; from HALF_OPEN
with `success_threshold = 2`, one success keeps it HALF_OPEN, two close
it, and a failure reopens it. -/
theorem circuit_breaker_transition_invariant_witness :
    ((CircuitBreaker.init "gemini_api"
        { CircuitBreakerConfig.default with failure_threshold := 3 }).onFailures
          [0, 1]).state = CircuitState.CLOSED ∧
    ((CircuitBreaker.init "gemini_api"
        { CircuitBreakerConfig.default with failure_threshold := 3 }).onFailures
          [0, 1, 2]).state = CircuitState.OPEN ∧
    ((CircuitBreaker.init "gemini_api"
        { CircuitBreakerConfig.default with success_threshold := 2 }).toHalfOpen.on_failure
          5).state = CircuitState.OPEN := by
  have h1 := circuit_breaker_transition_invariant
    (CircuitBreaker.init "gemini_api"
      { CircuitBreakerConfig.default with failure_threshold := 3 }) 0
  have h2 := circuit_breaker_transition_invariant
    (CircuitBreaker.init "gemini_api"
      { CircuitBreakerConfig.default with success_threshold := 2 }).toHalfOpen 5
  refine ⟨(h1.2.2.1 (by decide) (by decide) [0, 1] (by decide)).1,
    h1.2.2.2.1 (by decide) (by decide) [0, 1, 2] (by decide) (by decide),
    (h2.2.2.2.2.2.2 (by decide)).1⟩

/-! ### Claim C2 -/

theorem execute_invoked (cb : CircuitBreaker) (now : ℚ) (o : Outcome) :
    (cb.execute now o).invoked = true := by
  cases o with
  | success => rfl
  | timeout => rfl
  | exc c =>
      simp only [CircuitBreaker.execute]
      split <;> rfl

/-- C2: while the breaker is OPEN and `now - last_failure_timestamp <
recovery_timeout`, `call` raises a circuit-open error carrying the
dependency name, the current state, the failure streak, and the seconds
remaining until retry, without invoking the wrapped operation (only
`call_count` changes); the first call at or after the boundary transitions
the breaker to HALF_OPEN (probe streak reset to zero) and then executes
the operation. -/
theorem circuit_breaker_open_rejection (cb : CircuitBreaker) (now : ℚ) (o : Outcome)
    (h : cb.state = CircuitState.OPEN) :
    (now - cb.last_failure_time < (cb.config.recovery_timeout : ℚ) →
      (cb.call now o).invoked = false ∧
      (cb.call now o).result = CallResult.circuitOpen
        { circuit_name := cb.name
          state := CircuitState.OPEN
          failure_count := cb.failure_count
          time_until_retry :=
            (cb.config.recovery_timeout : ℚ) - (now - cb.last_failure_time) } ∧
      (cb.call now o).cb = { cb with call_count := cb.call_count + 1 }) ∧
    ((cb.config.recovery_timeout : ℚ) ≤ now - cb.last_failure_time →
      (cb.call now o).invoked = true ∧
      cb.call now o =
        ({ cb with call_count := cb.call_count + 1 }).toHalfOpen.execute now o ∧
      ({ cb with call_count := cb.call_count + 1 }).toHalfOpen.state = CircuitState.HALF_OPEN ∧
      ({ cb with call_count := cb.call_count + 1 }).toHalfOpen.success_count = 0) := by
  constructor
  · intro hlt
    have hnot : ¬ (cb.config.recovery_timeout : ℚ) ≤ now - cb.last_failure_time := by
      exact not_le.mpr hlt
    refine ⟨?_, ?_, ?_⟩ <;> simp [CircuitBreaker.call, h, hnot]
  · intro hge
    refine ⟨?_, ?_, rfl, rfl⟩
    · simp only [CircuitBreaker.call, h]
      simp [hge, execute_invoked]
    · simp only [CircuitBreaker.call, h]
      simp [hge]

/-- Witness for C2: an OPEN breaker with `recovery_timeout = 60` and last
failure at time 0 rejects a call at time 10 without invoking the
operation, and carries 50 seconds until retry; a call at time 60 invokes
the operation. -/
theorem circuit_breaker_open_rejection_witness :
    (({ CircuitBreaker.init "gemini_api" CircuitBreakerConfig.default with
        state := CircuitState.OPEN, failure_count := 5 }).call 10 Outcome.success).invoked
      = false ∧
    (({ CircuitBreaker.init "gemini_api" CircuitBreakerConfig.default with
        state := CircuitState.OPEN, failure_count := 5 }).call 10 Outcome.success).result
      = CallResult.circuitOpen
          { circuit_name := "gemini_api"
            state := CircuitState.OPEN
            failure_count := 5
            time_until_retry := 50 } ∧
    (({ CircuitBreaker.init "gemini_api" CircuitBreakerConfig.default with
        state := CircuitState.OPEN, failure_count := 5 }).call 60 Outcome.success).invoked
      = true := by
  have h1 := circuit_breaker_open_rejection
    ({ CircuitBreaker.init "gemini_api" CircuitBreakerConfig.default with
        state := CircuitState.OPEN, failure_count := 5 }) 10 Outcome.success (by decide)
  have h2 := circuit_breaker_open_rejection
    ({ CircuitBreaker.init "gemini_api" CircuitBreakerConfig.default with
        state := CircuitState.OPEN, failure_count := 5 }) 60 Outcome.success (by decide)
  obtain ⟨ha, hb, -⟩ := h1.1 (by
    norm_num [CircuitBreaker.init, CircuitBreakerConfig.default])
  refine ⟨ha, ?_, (h2.2 (by
    norm_num [CircuitBreaker.init, CircuitBreakerConfig.default])).1⟩
  rw [hb]
  norm_num [CircuitBreaker.init, CircuitBreakerConfig.default]

/-! ### Claim C3 -/

theorem on_success_call_count (cb : CircuitBreaker) :
    cb.on_success.call_count = cb.call_count := by
  simp only [CircuitBreaker.on_success]
  split
  · split <;> rfl
  · split <;> rfl

theorem on_failure_call_count (cb : CircuitBreaker) (t : ℚ) :
    (cb.on_failure t).call_count = cb.call_count := by
  simp only [CircuitBreaker.on_failure]
  split
  · split <;> rfl
  · split <;> rfl

theorem execute_counters (cb : CircuitBreaker) (now : ℚ) (o : Outcome) :
    (cb.execute now o).cb.call_count = cb.call_count ∧
    (cb.execute now o).cb.success_total =
      cb.success_total + (if (cb.execute now o).result.isOk then 1 else 0) ∧
    (cb.execute now o).cb.failure_total =
      cb.failure_total + (if (cb.execute now o).result.isCountedFailure then 1 else 0) := by
  cases o with
  | success =>
      exact ⟨on_success_call_count cb, by simp [CircuitBreaker.execute, CallResult.isOk,
        on_success_success_total], by simp [CircuitBreaker.execute, CallResult.isCountedFailure,
        on_success_failure_total]⟩
  | timeout =>
      exact ⟨on_failure_call_count cb now, by simp [CircuitBreaker.execute, CallResult.isOk,
        on_failure_success_total], by simp [CircuitBreaker.execute, CallResult.isCountedFailure,
        on_failure_failure_total]⟩
  | exc c =>
      simp only [CircuitBreaker.execute]
      split
      · exact ⟨on_failure_call_count cb now, by simp [CallResult.isOk, on_failure_success_total],
          by simp [CallResult.isCountedFailure, on_failure_failure_total]⟩
      · exact ⟨rfl, by simp [CallResult.isOk], by simp [CallResult.isCountedFailure]⟩

/-- Per-call bookkeeping: every call increments `call_count` by one; the
lifetime success/failure totals each grow by one exactly when the result
is a terminal success / counted failure. -/
theorem call_counters (cb : CircuitBreaker) (now : ℚ) (o : Outcome) :
    (cb.call now o).cb.call_count = cb.call_count + 1 ∧
    (cb.call now o).cb.success_total =
      cb.success_total + (if (cb.call now o).result.isOk then 1 else 0) ∧
    (cb.call now o).cb.failure_total =
      cb.failure_total + (if (cb.call now o).result.isCountedFailure then 1 else 0) := by
  simp only [CircuitBreaker.call]
  split
  · split
    · have h := execute_counters
        ({ cb with call_count := cb.call_count + 1 }).toHalfOpen now o
      exact ⟨h.1, h.2.1, h.2.2⟩
    · exact ⟨rfl, by simp [CallResult.isOk], by simp [CallResult.isCountedFailure]⟩
  · have h := execute_counters ({ cb with call_count := cb.call_count + 1 }) now o
    exact ⟨h.1, h.2.1, h.2.2⟩

/-- Each observed result falls in exactly one of the four classes. -/
theorem result_partition (rs : List CallResult) :
    rs.countP CallResult.isOk + rs.countP CallResult.isCountedFailure +
      rs.countP CallResult.isRejected + rs.countP CallResult.isUncounted = rs.length := by
  induction rs with
  | nil => rfl
  | cons r rs ih =>
      cases r <;>
        simp [List.countP_cons, List.length_cons, CallResult.isOk,
          CallResult.isCountedFailure, CallResult.isRejected, CallResult.isUncounted] <;>
        omega

theorem runCalls_accounting (trace : List (ℚ × Outcome)) :
    ∀ cb : CircuitBreaker,
      (runCalls cb trace).1.call_count = cb.call_count + trace.length ∧
      (runCalls cb trace).1.success_total =
        cb.success_total + (runCalls cb trace).2.countP CallResult.isOk ∧
      (runCalls cb trace).1.failure_total =
        cb.failure_total + (runCalls cb trace).2.countP CallResult.isCountedFailure ∧
      (runCalls cb trace).2.length = trace.length := by
  induction trace with
  | nil => intro cb; exact ⟨rfl, rfl, rfl, rfl⟩
  | cons e rest ih =>
      intro cb
      obtain ⟨h1, h2, h3⟩ := call_counters cb e.1 e.2
      obtain ⟨g1, g2, g3, g4⟩ := ih (cb.call e.1 e.2).cb
      simp only [runCalls, List.length_cons, List.countP_cons]
      refine ⟨by rw [g1, h1]; omega, ?_, ?_, by rw [g4]⟩
      · rw [g2, h2]; cases hr : (cb.call e.1 e.2).result.isOk <;> simp [hr] <;> omega
      · rw [g3, h3]; cases hr : (cb.call e.1 e.2).result.isCountedFailure <;>
          simp [hr] <;> omega

theorem runCalls_split (l1 l2 : List (ℚ × Outcome)) :
    ∀ cb : CircuitBreaker,
      (runCalls cb (l1 ++ l2)).1 = (runCalls (runCalls cb l1).1 l2).1 := by
  induction l1 with
  | nil => intro cb; rfl
  | cons e rest ih => intro cb; simp only [List.cons_append, runCalls]; exact ih _

/-- C3 (amended): across any mix of outcomes, `call_count`,
`success_total` and `failure_total` never decrease (at every observation
point of a run); every call increments `call_count` exactly once and
every terminal success / counted failure increments the corresponding
total exactly once; but calls rejected while OPEN and uncounted
exceptions increment neither total, so for a freshly initialized breaker
`call_count = success_total + failure_total + rejected + uncounted`
rather than `call_count = success_total + failure_total`. -/
theorem circuit_breaker_counter_accounting (name : String)
    (cfg : CircuitBreakerConfig) (trace : List (ℚ × Outcome)) :
    (∀ (cb : CircuitBreaker) (now : ℚ) (o : Outcome),
      (cb.call now o).cb.call_count = cb.call_count + 1 ∧
      (cb.call now o).cb.success_total =
        cb.success_total + (if (cb.call now o).result.isOk then 1 else 0) ∧
      (cb.call now o).cb.failure_total =
        cb.failure_total + (if (cb.call now o).result.isCountedFailure then 1 else 0)) ∧
    (∀ l1 l2, trace = l1 ++ l2 →
      (runCalls (CircuitBreaker.init name cfg) l1).1.call_count ≤
        (runCalls (CircuitBreaker.init name cfg) trace).1.call_count ∧
      (runCalls (CircuitBreaker.init name cfg) l1).1.success_total ≤
        (runCalls (CircuitBreaker.init name cfg) trace).1.success_total ∧
      (runCalls (CircuitBreaker.init name cfg) l1).1.failure_total ≤
        (runCalls (CircuitBreaker.init name cfg) trace).1.failure_total) ∧
    (runCalls (CircuitBreaker.init name cfg) trace).1.call_count =
      (runCalls (CircuitBreaker.init name cfg) trace).1.success_total +
      (runCalls (CircuitBreaker.init name cfg) trace).1.failure_total +
      (runCalls (CircuitBreaker.init name cfg) trace).2.countP CallResult.isRejected +
      (runCalls (CircuitBreaker.init name cfg) trace).2.countP CallResult.isUncounted := by
  refine ⟨call_counters, ?_, ?_⟩
  · intro l1 l2 hsplit
    subst hsplit
    rw [runCalls_split l1 l2]
    obtain ⟨a1, a2, a3, -⟩ := runCalls_accounting l2 (runCalls (CircuitBreaker.init name cfg) l1).1
    exact ⟨by omega, by omega, by omega⟩
  · obtain ⟨a1, a2, a3, a4⟩ := runCalls_accounting trace (CircuitBreaker.init name cfg)
    have hp := result_partition (runCalls (CircuitBreaker.init name cfg) trace).2
    have e1 : (CircuitBreaker.init name cfg).call_count = 0 := rfl
    have e2 : (CircuitBreaker.init name cfg).success_total = 0 := rfl
    have e3 : (CircuitBreaker.init name cfg).failure_total = 0 := rfl
    rw [e1] at a1
    rw [e2] at a2
    rw [e3] at a3
    omega

/-- Witness for the amended C3 at a concrete trace: the totals after the
first call of `traceX` are bounded by the totals after both calls. -/
theorem circuit_breaker_counter_accounting_witness :
    (runCalls (CircuitBreaker.init "x" cfgX)
      [((0 : ℚ), Outcome.exc ExcClass.ValueErrorCls)]).1.call_count ≤
      (runCalls (CircuitBreaker.init "x" cfgX) traceX).1.call_count := by
  have h := circuit_breaker_counter_accounting "x" cfgX traceX
  exact (h.2.1 [((0 : ℚ), Outcome.exc ExcClass.ValueErrorCls)]
    [((1 : ℚ), Outcome.success)] (by rfl)).1

/-- Counterexample for C3 as stated: with `failure_threshold = 1`, one
counted failure at time 0 opens the circuit; a second call at time 1 is
rejected while OPEN, so it increments `total_calls` but neither
`total_successes` nor `total_failures`, and
`total_calls = total_successes + total_failures` fails. -/
theorem circuit_breaker_counter_equality_fails :
    finalX.call_count = 2 ∧ finalX.success_total = 0 ∧ finalX.failure_total = 1 ∧
    ¬ finalX.call_count = finalX.success_total + finalX.failure_total := by
  have s1 : (CircuitBreaker.init "x" cfgX).call 0 (Outcome.exc ExcClass.ValueErrorCls) =
      { cb := { name := "x", config := cfgX, state := CircuitState.OPEN,
                failure_count := 1, success_count := 0, last_failure_time := 0,
                call_count := 1, success_total := 0, failure_total := 1 }
        result := CallResult.reraisedCounted ExcClass.ValueErrorCls
        invoked := true } := by
    norm_num [CircuitBreaker.call, CircuitBreaker.execute, CircuitBreaker.on_failure,
      CircuitBreaker.init, ExcClass.isSubclassOf, cfgX]
    decide
  have s2 : ({ name := "x", config := cfgX, state := CircuitState.OPEN,
                failure_count := 1, success_count := 0, last_failure_time := 0,
                call_count := 1, success_total := 0, failure_total := 1 } :
        CircuitBreaker).call 1 Outcome.success =
      { cb := { name := "x", config := cfgX, state := CircuitState.OPEN,
                failure_count := 1, success_count := 0, last_failure_time := 0,
                call_count := 2, success_total := 0, failure_total := 1 }
        result := CallResult.circuitOpen
          { circuit_name := "x", state := CircuitState.OPEN, failure_count := 1,
            time_until_retry := 59 }
        invoked := false } := by
    norm_num [CircuitBreaker.call, cfgX]
  have hfin : finalX =
      { name := "x", config := cfgX, state := CircuitState.OPEN,
        failure_count := 1, success_count := 0, last_failure_time := 0,
        call_count := 2, success_total := 0, failure_total := 1 } := by
    simp only [finalX, traceX, runCalls, s1, s2]
  rw [hfin]
  norm_num

/-! ### Claim C5 -/

theorem call_not_open (cb : CircuitBreaker) (now : ℚ) (o : Outcome)
    (h : cb.state ≠ CircuitState.OPEN) :
    cb.call now o = ({ cb with call_count := cb.call_count + 1 }).execute now o := by
  simp [CircuitBreaker.call, h]

/-- C5: for operations executed in CLOSED or HALF_OPEN, exceeding the
deadline counts as a failure and raises the distinct timeout error kind;
an exception matching the configured expected type counts as a failure
and is re-raised carrying the same exception; any other exception is
re-raised unchanged but leaves the failure streak, the state, the
failure total, and the failure timestamp untouched. -/
theorem call_failure_classification (cb : CircuitBreaker) (now : ℚ) (c : ExcClass)
    (h : cb.state ≠ CircuitState.OPEN) :
    ((cb.call now Outcome.timeout).result = CallResult.timeoutErr cb.name cb.config.timeout ∧
     (cb.call now Outcome.timeout).cb.failure_total = cb.failure_total + 1 ∧
     (cb.call now Outcome.timeout).cb.failure_count = cb.failure_count + 1) ∧
    (c.isSubclassOf cb.config.expected_exception = true →
      (cb.call now (Outcome.exc c)).result = CallResult.reraisedCounted c ∧
      (cb.call now (Outcome.exc c)).cb.failure_total = cb.failure_total + 1 ∧
      (cb.call now (Outcome.exc c)).cb.failure_count = cb.failure_count + 1) ∧
    (c.isSubclassOf cb.config.expected_exception = false →
      (cb.call now (Outcome.exc c)).result = CallResult.reraisedUncounted c ∧
      (cb.call now (Outcome.exc c)).cb.state = cb.state ∧
      (cb.call now (Outcome.exc c)).cb.failure_count = cb.failure_count ∧
      (cb.call now (Outcome.exc c)).cb.failure_total = cb.failure_total ∧
      (cb.call now (Outcome.exc c)).cb.last_failure_time = cb.last_failure_time) := by
  refine ⟨?_, ?_, ?_⟩
  · rw [call_not_open cb now Outcome.timeout h]
    exact ⟨rfl, on_failure_failure_total { cb with call_count := cb.call_count + 1 } now,
      on_failure_failure_count { cb with call_count := cb.call_count + 1 } now⟩
  · intro hsub
    rw [call_not_open cb now (Outcome.exc c) h]
    have e : ({ cb with call_count := cb.call_count + 1 }).execute now (Outcome.exc c) =
        { cb := ({ cb with call_count := cb.call_count + 1 }).on_failure now
          result := CallResult.reraisedCounted c
          invoked := true } := by
      simp [CircuitBreaker.execute, hsub]
    rw [e]
    exact ⟨rfl, on_failure_failure_total _ now, on_failure_failure_count _ now⟩
  · intro hsub
    rw [call_not_open cb now (Outcome.exc c) h]
    have e : ({ cb with call_count := cb.call_count + 1 }).execute now (Outcome.exc c) =
        { cb := { cb with call_count := cb.call_count + 1 }
          result := CallResult.reraisedUncounted c
          invoked := true } := by
      simp [CircuitBreaker.execute, hsub]
    rw [e]
    exact ⟨rfl, rfl, rfl, rfl, rfl⟩

/-- Witness for C5 at a concrete CLOSED breaker with
`expected_exception = ValueError`: a timeout raises the timeout error
kind and counts; a `KeyError` (not a subclass of `ValueError`) is
re-raised with the failure total unchanged. -/
theorem call_failure_classification_witness :
    (((CircuitBreaker.init "d"
        { CircuitBreakerConfig.default with
          expected_exception := ExcClass.ValueErrorCls }).call 0 Outcome.timeout).result =
      CallResult.timeoutErr "d" 30) ∧
    (((CircuitBreaker.init "d"
        { CircuitBreakerConfig.default with
          expected_exception := ExcClass.ValueErrorCls }).call 0
        (Outcome.exc ExcClass.KeyErrorCls)).result =
      CallResult.reraisedUncounted ExcClass.KeyErrorCls) ∧
    (((CircuitBreaker.init "d"
        { CircuitBreakerConfig.default with
          expected_exception := ExcClass.ValueErrorCls }).call 0
        (Outcome.exc ExcClass.KeyErrorCls)).cb.failure_total = 0) := by
  have h := call_failure_classification
    (CircuitBreaker.init "d"
      { CircuitBreakerConfig.default with expected_exception := ExcClass.ValueErrorCls })
    0 ExcClass.KeyErrorCls (by decide)
  obtain ⟨hu1, -, -, hu3, -⟩ := h.2.2 (by decide)
  exact ⟨h.1.1, hu1, hu3⟩

/-! ### Claim C10 -/

theorem isSubclassOf_exception (c : ExcClass) :
    c.isSubclassOf ExcClass.ExceptionCls = true := by
  cases c <;> rfl

theorem execute_no_uncounted (cb : CircuitBreaker) (now : ℚ) (o : Outcome)
    (h : cb.config.expected_exception = ExcClass.ExceptionCls) :
    ∀ c, (cb.execute now o).result ≠ CallResult.reraisedUncounted c := by
  intro c
  cases o with
  | success => simp [CircuitBreaker.execute]
  | timeout => simp [CircuitBreaker.execute]
  | exc c2 => simp [CircuitBreaker.execute, h, isSubclassOf_exception]

/-- C10: all four dependency getters leave `expected_exception` at its
dataclass default `Exception`; every modelled exception class is a
subclass of `Exception`, so for a breaker configured that way no call can
ever take the uncounted-exception branch. -/
theorem default_expected_exception_catches_all :
    (geminiBreakerConfig.expected_exception = ExcClass.ExceptionCls ∧
     telegramBreakerConfig.expected_exception = ExcClass.ExceptionCls ∧
     gmailBreakerConfig.expected_exception = ExcClass.ExceptionCls ∧
     calendarBreakerConfig.expected_exception = ExcClass.ExceptionCls) ∧
    (∀ c : ExcClass, c.isSubclassOf ExcClass.ExceptionCls = true) ∧
    (∀ (cb : CircuitBreaker) (now : ℚ) (o : Outcome),
      cb.config.expected_exception = ExcClass.ExceptionCls →
      ∀ c, (cb.call now o).result ≠ CallResult.reraisedUncounted c) := by
  refine ⟨⟨rfl, rfl, rfl, rfl⟩, isSubclassOf_exception, ?_⟩
  intro cb now o h c
  simp only [CircuitBreaker.call]
  split
  · split
    · exact execute_no_uncounted
        ({ cb with call_count := cb.call_count + 1 }).toHalfOpen now o h c
    · simp
  · exact execute_no_uncounted { cb with call_count := cb.call_count + 1 } now o h c

/-- Witness for C10: a `KeyError` raised through the Gemini breaker is
not re-raised through the uncounted branch. -/
theorem default_expected_exception_catches_all_witness :
    ((CircuitBreaker.init "gemini_api" geminiBreakerConfig).call 0
      (Outcome.exc ExcClass.KeyErrorCls)).result ≠
      CallResult.reraisedUncounted ExcClass.KeyErrorCls := by
  exact default_expected_exception_catches_all.2.2
    (CircuitBreaker.init "gemini_api" geminiBreakerConfig) 0
    (Outcome.exc ExcClass.KeyErrorCls) (by rfl) ExcClass.KeyErrorCls

/-! ### Claim C8 -/

theorem lookup_append_self (k : String) (b : CircuitBreaker) :
    ∀ l : List (String × CircuitBreaker), l.lookup k = none →
      (l ++ [(k, b)]).lookup k = some b := by
  intro l
  induction l with
  | nil => intro _; simp [List.lookup]
  | cons e es ih =>
      obtain ⟨k0, b0⟩ := e
      intro h
      simp only [List.lookup, List.cons_append] at h ⊢
      cases hk : (k == k0) with
      | true => rw [hk] at h; simp at h
      | false => rw [hk] at h; exact ih h

/-- C8: the first registry lookup of a name constructs the breaker from
the supplied config (or the dataclass default when none is supplied) and
appends it; a lookup of an existing name returns the stored breaker
unchanged, whatever config is supplied; `get_breaker` never removes an
entry; and after any lookup, a repeated lookup of the same name returns
the very same breaker with the registry unchanged, ignoring any config
supplied later. -/
theorem registry_get_breaker (m : CircuitBreakerManager) (name : String)
    (config : Option CircuitBreakerConfig) :
    (m.breakers.lookup name = none →
      m.get_breaker name config =
        ({ breakers := m.breakers ++
            [(name, CircuitBreaker.init name (config.getD CircuitBreakerConfig.default))] },
          CircuitBreaker.init name (config.getD CircuitBreakerConfig.default))) ∧
    (∀ b, m.breakers.lookup name = some b →
      ∀ config2, m.get_breaker name config2 = (m, b)) ∧
    (∀ e, e ∈ m.breakers → e ∈ (m.get_breaker name config).1.breakers) ∧
    (∀ config2,
      (m.get_breaker name config).1.get_breaker name config2 =
        ((m.get_breaker name config).1, (m.get_breaker name config).2)) := by
  refine ⟨?_, ?_, ?_, ?_⟩
  · intro h
    simp [CircuitBreakerManager.get_breaker, h]
  · intro b hb config2
    simp [CircuitBreakerManager.get_breaker, hb]
  · intro e he
    simp only [CircuitBreakerManager.get_breaker]
    cases hl : m.breakers.lookup name with
    | some b => simpa [hl] using he
    | none => simp only [hl]; exact List.mem_append_left _ he
  · intro config2
    cases hl : m.breakers.lookup name with
    | some b =>
        have h1 : m.get_breaker name config = (m, b) := by
          simp [CircuitBreakerManager.get_breaker, hl]
        rw [h1]
        simp [CircuitBreakerManager.get_breaker, hl]
    | none =>
        have h1 : m.get_breaker name config =
            ({ breakers := m.breakers ++
                [(name, CircuitBreaker.init name (config.getD CircuitBreakerConfig.default))] },
              CircuitBreaker.init name (config.getD CircuitBreakerConfig.default)) := by
          simp [CircuitBreakerManager.get_breaker, hl]
        rw [h1]
        have h2 := lookup_append_self name
          (CircuitBreaker.init name (config.getD CircuitBreakerConfig.default)) m.breakers hl
        simp [CircuitBreakerManager.get_breaker, h2]

/-- Witness for C8: on an empty registry, looking up `gemini_api` with
the Gemini config creates and stores that breaker; looking it up again
with no config returns the very same breaker and leaves the registry
unchanged. -/
theorem registry_get_breaker_witness :
    (CircuitBreakerManager.mk []).get_breaker "gemini_api" (some geminiBreakerConfig) =
      (CircuitBreakerManager.mk
        [("gemini_api", CircuitBreaker.init "gemini_api" geminiBreakerConfig)],
        CircuitBreaker.init "gemini_api" geminiBreakerConfig) ∧
    (CircuitBreakerManager.mk
        [("gemini_api", CircuitBreaker.init "gemini_api" geminiBreakerConfig)]).get_breaker
        "gemini_api" none =
      (CircuitBreakerManager.mk
        [("gemini_api", CircuitBreaker.init "gemini_api" geminiBreakerConfig)],
        CircuitBreaker.init "gemini_api" geminiBreakerConfig) := by
  have h := registry_get_breaker (CircuitBreakerManager.mk []) "gemini_api"
    (some geminiBreakerConfig)
  have h1 := h.1 (by rfl)
  have h2 := registry_get_breaker
    (CircuitBreakerManager.mk
      [("gemini_api", CircuitBreaker.init "gemini_api" geminiBreakerConfig)]) "gemini_api" none
  have h3 := h2.2.1 (CircuitBreaker.init "gemini_api" geminiBreakerConfig) (by
    simp [List.lookup]) none
  exact ⟨h1, h3⟩

/-! ### Claim C4 -/

/-- On a non-decreasing list, popping the expired prefix removes exactly
the expired elements. -/
theorem sorted_dropWhile_eq_filter (c : ℚ) :
    ∀ l : List ℚ, l.Sorted (· ≤ ·) →
      l.dropWhile (fun t => decide (t ≤ c)) = l.filter (fun t => decide (c < t)) := by
  intro l
  induction l with
  | nil => intro _; rfl
  | cons x l ih =>
      intro hs
      rw [List.sorted_cons] at hs
      rw [List.dropWhile_cons, List.filter_cons]
      by_cases hx : x ≤ c
      · have h1 : ¬ c < x := not_lt.mpr hx
        simp only [hx, h1, decide_True, decide_False, if_true, if_false]
        exact ih hs.2
      · have hcx : c < x := not_le.mp hx
        simp only [hx, hcx, decide_True, decide_False, if_true, if_false]
        refine (congrArg (x :: ·) ?_).symm
        rw [List.filter_eq_self.mpr]
        intro b hb
        simpa using lt_of_lt_of_le hcx (hs.1 b hb)

/-- Step contract of `acquire` on a sorted deque: it purges exactly the
timestamps at least `time_window` old, admits (appending `now` and
returning `true`) iff the retained count is below `max_requests`, leaves
the retained timestamps untouched on denial, and never changes the
configuration. -/
theorem acquire_spec (rl : RateLimiter) (now : ℚ)
    (hs : rl.requests.Sorted (· ≤ ·)) :
    ((rl.acquire now).2 = true ↔
      (rl.requests.filter (fun t => decide (now - (rl.time_window : ℚ) < t))).length <
        rl.max_requests) ∧
    (rl.acquire now).1.requests =
      rl.requests.filter (fun t => decide (now - (rl.time_window : ℚ) < t)) ++
        (if (rl.acquire now).2 = true then [now] else []) ∧
    (rl.acquire now).1.max_requests = rl.max_requests ∧
    (rl.acquire now).1.time_window = rl.time_window := by
  have hd := sorted_dropWhile_eq_filter (now - (rl.time_window : ℚ)) rl.requests hs
  by_cases hlen :
      (rl.requests.filter (fun t => decide (now - (rl.time_window : ℚ) < t))).length <
        rl.max_requests
  · simp [RateLimiter.acquire, hd, hlen]
  · simp [RateLimiter.acquire, hd, hlen]

theorem runAcquire_times (ts : List ℚ) :
    ∀ rl : RateLimiter, ((rl.runAcquire ts).2.map (fun e => e.1)) = ts := by
  induction ts with
  | nil => intro rl; rfl
  | cons t ts ih =>
      intro rl
      simp only [RateLimiter.runAcquire, List.map_cons]
      rw [ih]

theorem admittedTimes_subset (rs : List (ℚ × Bool)) :
    ∀ s ∈ admittedTimes rs, s ∈ rs.map (fun e => e.1) := by
  intro s hsm
  simp only [admittedTimes, List.mem_map] at hsm
  obtain ⟨e, he, rfl⟩ := hsm
  exact List.mem_map_of_mem _ (List.mem_of_mem_filter he)

theorem admittedTimes_cons (t : ℚ) (b : Bool) (rs : List (ℚ × Bool)) :
    admittedTimes ((t, b) :: rs) = (if b then [t] else []) ++ admittedTimes rs := by
  cases b <;> simp [admittedTimes]

/-- Inductive invariant for the sliding-window cap: the retained
timestamps inside the rolling interval `(a, a + w]` plus the future
admissions inside that interval never exceed the cap. -/
theorem runAcquire_cap (a : ℚ) (w m : Nat) :
    ∀ (ts : List ℚ) (rl : RateLimiter),
      rl.max_requests = m →
      rl.time_window = w →
      ts.Sorted (· ≤ ·) →
      rl.requests.Sorted (· ≤ ·) →
      (∀ x ∈ rl.requests, ∀ t ∈ ts, x ≤ t) →
      rl.requests.length ≤ m →
      (rl.requests.filter (inWindow a w)).length +
        ((admittedTimes (rl.runAcquire ts).2).filter (inWindow a w)).length ≤ m := by
  intro ts
  induction ts with
  | nil =>
      intro rl _ _ _ _ _ hlen
      have h1 : (rl.requests.filter (inWindow a w)).length ≤ rl.requests.length :=
        List.length_filter_le _ _
      simp only [RateLimiter.runAcquire, admittedTimes, List.filter_nil, List.map_nil,
        List.length_nil]
      omega
  | cons t ts ih =>
      intro rl hm hw hts hreq hle hlen
      rw [List.sorted_cons] at hts
      obtain ⟨hiff, hreq1, hmax1, hwin1⟩ := acquire_spec rl t hreq
      rw [hw] at hiff hreq1
      rw [hm] at hiff
      have hrun2 : (rl.runAcquire (t :: ts)).2 =
          (t, (rl.acquire t).2) :: ((rl.acquire t).1.runAcquire ts).2 := rfl
      have hkept_sorted :
          (rl.requests.filter (fun x => decide (t - (w : ℚ) < x))).Sorted (· ≤ ·) :=
        hreq.filter _
      have hkept_le :
          (rl.requests.filter (fun x => decide (t - (w : ℚ) < x))).length ≤
            rl.requests.length := List.length_filter_le _ _
      by_cases htw : t ≤ a + (w : ℚ)
      · have htrans :
            (rl.requests.filter (fun x => decide (t - (w : ℚ) < x))).filter (inWindow a w) =
              rl.requests.filter (inWindow a w) := by
          rw [List.filter_filter]
          refine List.filter_congr ?_
          intro x _
          cases hiw : inWindow a w x with
          | false => simp [hiw]
          | true =>
              have hax : a < x := by
                have h2 := hiw
                simp only [inWindow, Bool.and_eq_true, decide_eq_true_eq] at h2
                exact h2.1
              have h3 : t - (w : ℚ) < x := by linarith
              simp [hiw, h3]
        cases hflag : (rl.acquire t).2 with
        | true =>
            rw [hflag] at hreq1 hiff
            rw [if_pos rfl] at hreq1
            have hlt := hiff.mp rfl
            have hsorted1 : (rl.acquire t).1.requests.Sorted (· ≤ ·) := by
              rw [hreq1]
              rw [List.Sorted, List.pairwise_append]
              refine ⟨hkept_sorted, by simp, ?_⟩
              intro x hx b hb
              rw [List.mem_singleton] at hb
              rw [hb]
              exact hle x (List.mem_of_mem_filter hx) t (List.mem_cons_self t ts)
            have hle1 : ∀ x ∈ (rl.acquire t).1.requests, ∀ u ∈ ts, x ≤ u := by
              rw [hreq1]
              intro x hx u hu
              rcases List.mem_append.mp hx with hx1 | hx2
              · exact hle x (List.mem_of_mem_filter hx1) u (List.mem_cons_of_mem t hu)
              · rw [List.mem_singleton] at hx2
                rw [hx2]
                exact hts.1 u hu
            have hlen1 : (rl.acquire t).1.requests.length ≤ m := by
              rw [hreq1, List.length_append, List.length_singleton]
              omega
            have hIH := ih (rl.acquire t).1 (hmax1.trans hm) (hwin1.trans hw) hts.2
              hsorted1 hle1 hlen1
            have hnew :
                ((rl.acquire t).1.requests.filter (inWindow a w)).length =
                  (rl.requests.filter (inWindow a w)).length +
                    (if inWindow a w t then 1 else 0) := by
              rw [hreq1, List.filter_append, List.length_append, htrans]
              cases hwt : inWindow a w t <;> simp [List.filter_cons, hwt]
            rw [hrun2, hflag, admittedTimes_cons, if_pos rfl]
            have hsing : ([t] ++
                admittedTimes ((rl.acquire t).1.runAcquire ts).2).filter (inWindow a w) =
                [t].filter (inWindow a w) ++
                  (admittedTimes ((rl.acquire t).1.runAcquire ts).2).filter (inWindow a w) :=
              List.filter_append _ _
            rw [hsing, List.length_append]
            cases hwt : inWindow a w t with
            | true =>
                rw [hwt, if_pos rfl] at hnew
                have : ([t].filter (inWindow a w)).length = 1 := by
                  simp [List.filter_cons, hwt]
                omega
            | false =>
                rw [hwt, if_neg Bool.false_ne_true] at hnew
                have : ([t].filter (inWindow a w)).length = 0 := by
                  simp [List.filter_cons, hwt]
                omega
        | false =>
            rw [hflag] at hreq1
            rw [if_neg Bool.false_ne_true, List.append_nil] at hreq1
            have hsorted1 : (rl.acquire t).1.requests.Sorted (· ≤ ·) := by
              rw [hreq1]; exact hkept_sorted
            have hle1 : ∀ x ∈ (rl.acquire t).1.requests, ∀ u ∈ ts, x ≤ u := by
              rw [hreq1]
              intro x hx u hu
              exact hle x (List.mem_of_mem_filter hx) u (List.mem_cons_of_mem t hu)
            have hlen1 : (rl.acquire t).1.requests.length ≤ m := by
              rw [hreq1]; omega
            have hIH := ih (rl.acquire t).1 (hmax1.trans hm) (hwin1.trans hw) hts.2
              hsorted1 hle1 hlen1
            have hnew :
                ((rl.acquire t).1.requests.filter (inWindow a w)).length =
                  (rl.requests.filter (inWindow a w)).length := by
              rw [hreq1, htrans]
            rw [hrun2, hflag, admittedTimes_cons, if_neg Bool.false_ne_true,
              List.nil_append]
            omega
      · have hadm0 :
            (admittedTimes (rl.runAcquire (t :: ts)).2).filter (inWindow a w) = [] := by
          rw [List.filter_eq_nil_iff]
          intro s hsadm
          have hsin : s ∈ (t :: ts) := by
            have h4 := admittedTimes_subset _ s hsadm
            rwa [runAcquire_times] at h4
          have hts' : t ≤ s := by
            rcases List.mem_cons.mp hsin with rfl | hs2
            · exact le_refl s
            · exact hts.1 s hs2
          simp only [inWindow, Bool.and_eq_true, decide_eq_true_eq, not_and]
          intro _
          have h5 : a + (w : ℚ) < s := lt_of_lt_of_le (not_le.mp htw) hts'
          exact not_le.mpr h5
        rw [hadm0]
        have h1 : (rl.requests.filter (inWindow a w)).length ≤ rl.requests.length :=
          List.length_filter_le _ _
        simp only [List.length_nil]
        omega

/-- C4: `acquire` first purges the expired timestamps (retaining exactly
those younger than `window_seconds`), admits by appending the current
time and returning `true` exactly when the retained count is below
`max_requests`, appends nothing on denial; consequently, starting from a
fresh limiter, the admitted calls in any rolling interval of
`window_seconds` never exceed `max_requests`. -/
theorem rate_limiter_sliding_window_cap (m w : Nat) (nows : List ℚ) (a : ℚ)
    (hnows : nows.Sorted (· ≤ ·)) :
    (∀ (rl : RateLimiter) (now : ℚ), rl.requests.Sorted (· ≤ ·) →
      (((rl.acquire now).2 = true) ↔
        (rl.requests.filter (fun t => decide (now - (rl.time_window : ℚ) < t))).length <
          rl.max_requests) ∧
      (rl.acquire now).1.requests =
        rl.requests.filter (fun t => decide (now - (rl.time_window : ℚ) < t)) ++
          (if (rl.acquire now).2 = true then [now] else [])) ∧
    ((admittedTimes ((RateLimiter.init m w).runAcquire nows).2).filter (inWindow a w)).length
      ≤ m := by
  refine ⟨fun rl now hs => ⟨(acquire_spec rl now hs).1, (acquire_spec rl now hs).2.1⟩, ?_⟩
  have h := runAcquire_cap a w m nows (RateLimiter.init m w) rfl rfl hnows
    (by simp [RateLimiter.init]) (by simp [RateLimiter.init]) (by simp [RateLimiter.init])
  simpa [RateLimiter.init] using h

/-- Witness for C4: with a cap of 2 and a 60-second window, at most 2 of
the rapid-fire calls at times 0..3 are admitted into the interval
`(0, 60]`. -/
theorem rate_limiter_sliding_window_cap_witness :
    ((admittedTimes ((RateLimiter.init 2 60).runAcquire [0, 1, 2, 3]).2).filter
      (inWindow 0 60)).length ≤ 2 :=
  (rate_limiter_sliding_window_cap 2 60 [0, 1, 2, 3] 0 (by decide)).2

/-! ### Claims C6 and C7 -/

theorem nonRetryable_eq (c : Nat) : nonRetryableGemini c = nonRetryableProxy c := by
  simp only [nonRetryableGemini, nonRetryableProxy]
  by_cases h1 : 400 ≤ c <;> by_cases h2 : c < 500 <;> by_cases h3 : c = 429 <;>
    by_cases h4 : c = 503 <;> simp [h1, h2, h3, h4] <;> omega

theorem nonRetryableGemini_iff (c : Nat) :
    nonRetryableGemini c = true ↔ (400 ≤ c ∧ c < 500 ∧ c ≠ 429 ∧ c ≠ 503) := by
  simp only [nonRetryableGemini, Bool.and_eq_true, decide_eq_true_eq, bne_iff_ne]
  constructor
  · rintro ⟨⟨h1, h2⟩, h3⟩
    exact ⟨h1, h2, h3, by omega⟩
  · rintro ⟨h1, h2, h3, -⟩
    exact ⟨⟨h1, h2⟩, h3⟩

theorem retryFrom_nonretryable_stops (nr : Nat → Bool) (base : Nat)
    (f : Nat → AttemptResult) (maxA r i : Nat) (last : Option AttemptResult) (c : Nat)
    (hf : f i = AttemptResult.httpStatus c) (hnr : nr c = true) :
    retryFrom nr base f maxA (r + 1) i last =
      { invocations := 1
        waits := if 0 < i then [base * 2 ^ i] else []
        surface := RetrySurface.failure (some (AttemptResult.httpStatus c)) maxA } := by
  simp [retryFrom, hf, hnr]

theorem retryFrom_retryable_step (nr : Nat → Bool) (base : Nat)
    (f : Nat → AttemptResult) (maxA r i : Nat) (last : Option AttemptResult)
    (hf : isRetryableFailure nr (f i) = true) :
    retryFrom nr base f maxA (r + 1) i last =
      { invocations := (retryFrom nr base f maxA r (i + 1) (some (f i))).invocations + 1
        waits := (if 0 < i then [base * 2 ^ i] else []) ++
          (retryFrom nr base f maxA r (i + 1) (some (f i))).waits
        surface := (retryFrom nr base f maxA r (i + 1) (some (f i))).surface } := by
  cases hfi : f i with
  | ok => rw [hfi] at hf; simp [isRetryableFailure] at hf
  | timeoutE => simp [retryFrom, hfi]
  | httpStatus c =>
      rw [hfi] at hf
      simp only [isRetryableFailure, Bool.not_eq_true'] at hf
      simp [retryFrom, hfi, hf]
  | otherExc => simp [retryFrom, hfi]

theorem retryFrom_invocations_pos (nr : Nat → Bool) (base : Nat)
    (f : Nat → AttemptResult) (maxA : Nat) :
    ∀ (r i : Nat) (last : Option AttemptResult),
      1 ≤ (retryFrom nr base f maxA (r + 1) i last).invocations := by
  intro r i last
  cases hfi : f i with
  | ok => simp [retryFrom, hfi]
  | timeoutE => simp [retryFrom, hfi]
  | httpStatus c =>
      by_cases hnr : nr c = true
      · simp [retryFrom, hfi, hnr]
      · rw [Bool.not_eq_true] at hnr
        simp [retryFrom, hfi, hnr]
  | otherExc => simp [retryFrom, hfi]

theorem retryFrom_all_fail (nr : Nat → Bool) (base : Nat) (f : Nat → AttemptResult)
    (maxA : Nat) :
    ∀ (r i : Nat) (last : Option AttemptResult),
      (∀ j, i ≤ j → j < i + r → isRetryableFailure nr (f j) = true) →
      (retryFrom nr base f maxA r i last).invocations = r ∧
      (retryFrom nr base f maxA r i last).surface =
        RetrySurface.failure (if r = 0 then last else some (f (i + r - 1))) maxA := by
  intro r
  induction r with
  | zero => intro i last _; exact ⟨rfl, by simp [retryFrom]⟩
  | succ r ih =>
      intro i last h
      have hstep := retryFrom_retryable_step nr base f maxA r i last
        (h i (Nat.le_refl i) (by omega))
      rw [hstep]
      have hrec := ih (i + 1) (some (f i)) (fun j h1 h2 => h j (by omega) (by omega))
      refine ⟨by rw [hrec.1], ?_⟩
      rw [hrec.2]
      cases hr : r with
      | zero => simp
      | succ r0 =>
          have h1 : ¬ (r0 + 1 = 0) := by omega
          have h2 : ¬ (r0 + 1 + 1 = 0) := by omega
          have h3 : i + 1 + (r0 + 1) - 1 = i + (r0 + 1 + 1) - 1 := by omega
          simp only [h1, h2, if_false, h3]

/-- C6: a response with a status in 400..499 other than 429 (and hence
other than 503) aborts the retry loop after the current attempt in both
wrappers and surfaces a terminal error wrapping it — in particular a 404
on the first attempt gives exactly one invocation; timeouts, 5xx, 429
and 503 lead to another attempt, and the two wrappers classify statuses
identically; when every attempt fails retryably, the run performs
exactly `max_attempts` invocations and surfaces a terminal error
wrapping the last observed failure and stating the attempt count. -/
theorem retry_abort_and_exhaustion :
    (∀ c : Nat, nonRetryableGemini c = nonRetryableProxy c) ∧
    (∀ c : Nat, nonRetryableGemini c = true ↔ (400 ≤ c ∧ c < 500 ∧ c ≠ 429 ∧ c ≠ 503)) ∧
    (∀ f : Nat → AttemptResult, f 0 = AttemptResult.httpStatus 404 →
      call_gemini_with_retry f =
        { invocations := 1, waits := [],
          surface := RetrySurface.failure (some (AttemptResult.httpStatus 404)) 3 } ∧
      (∀ m : Nat, forward_webhook_with_retry (m + 1) f =
        { invocations := 1, waits := [],
          surface := RetrySurface.failure (some (AttemptResult.httpStatus 404)) (m + 1) })) ∧
    (∀ (nr : Nat → Bool) (base : Nat) (f : Nat → AttemptResult)
        (maxA r i : Nat) (last : Option AttemptResult) (c : Nat),
      f i = AttemptResult.httpStatus c → nr c = true →
      retryFrom nr base f maxA (r + 1) i last =
        { invocations := 1
          waits := if 0 < i then [base * 2 ^ i] else []
          surface := RetrySurface.failure (some (AttemptResult.httpStatus c)) maxA }) ∧
    (∀ c : Nat, 500 ≤ c ∨ c = 429 ∨ c = 503 →
      isRetryableFailure nonRetryableGemini (AttemptResult.httpStatus c) = true ∧
      isRetryableFailure nonRetryableProxy (AttemptResult.httpStatus c) = true) ∧
    (isRetryableFailure nonRetryableGemini AttemptResult.timeoutE = true ∧
     isRetryableFailure nonRetryableProxy AttemptResult.timeoutE = true) ∧
    (∀ (nr : Nat → Bool) (base : Nat) (f : Nat → AttemptResult) (maxA r i : Nat)
        (last : Option AttemptResult),
      isRetryableFailure nr (f i) = true →
      (retryFrom nr base f maxA (r + 2) i last).invocations =
        (retryFrom nr base f maxA (r + 1) (i + 1) (some (f i))).invocations + 1 ∧
      1 ≤ (retryFrom nr base f maxA (r + 1) (i + 1) (some (f i))).invocations) ∧
    (∀ (nr : Nat → Bool) (base maxA : Nat) (f : Nat → AttemptResult),
      1 ≤ maxA → (∀ j, j < maxA → isRetryableFailure nr (f j) = true) →
      (retryRun nr base maxA f).invocations = maxA ∧
      (retryRun nr base maxA f).surface =
        RetrySurface.failure (some (f (maxA - 1))) maxA) := by
  refine ⟨nonRetryable_eq, nonRetryableGemini_iff, ?_, ?_, ?_, ?_, ?_, ?_⟩
  · intro f hf
    constructor
    · have h := retryFrom_nonretryable_stops nonRetryableGemini 2 f 3 2 0 none 404 hf rfl
      simpa [call_gemini_with_retry, retryRun] using h
    · intro m
      have h := retryFrom_nonretryable_stops nonRetryableProxy 1 f (m + 1) m 0 none 404 hf rfl
      simpa [forward_webhook_with_retry, retryRun] using h
  · intro nr base f maxA r i last c hf hnr
    exact retryFrom_nonretryable_stops nr base f maxA r i last c hf hnr
  · intro c hc
    rcases hc with h5 | h429 | h503 <;>
      simp [isRetryableFailure, nonRetryableGemini, nonRetryableProxy] <;> omega
  · exact ⟨rfl, rfl⟩
  · intro nr base f maxA r i last hf
    have h := retryFrom_retryable_step nr base f maxA (r + 1) i last hf
    rw [h]
    exact ⟨rfl, retryFrom_invocations_pos nr base f maxA r (i + 1) (some (f i))⟩
  · intro nr base maxA f h1 hall
    have h := retryFrom_all_fail nr base f maxA maxA 0 none
      (fun j hj1 hj2 => hall j (by omega))
    have h2 : ¬ (maxA = 0) := by omega
    refine ⟨h.1, ?_⟩
    show (retryFrom nr base f maxA maxA 0 none).surface = _
    rw [h.2]
    simp only [h2, if_false, Nat.zero_add]

/-- Witness for C6: with all three attempts timing out, the Gemini
wrapper performs exactly 3 invocations and surfaces a terminal error
wrapping the last timeout and stating 3 attempts; a 404 on the first
attempt stops it after one invocation. -/
theorem retry_abort_and_exhaustion_witness :
    ((retryRun nonRetryableGemini 2 3 (fun _ => AttemptResult.timeoutE)).invocations = 3 ∧
     (retryRun nonRetryableGemini 2 3 (fun _ => AttemptResult.timeoutE)).surface =
       RetrySurface.failure (some AttemptResult.timeoutE) 3) ∧
    call_gemini_with_retry (fun _ => AttemptResult.httpStatus 404) =
      { invocations := 1, waits := [],
        surface := RetrySurface.failure (some (AttemptResult.httpStatus 404)) 3 } := by
  refine ⟨retry_abort_and_exhaustion.2.2.2.2.2.2.2 nonRetryableGemini 2 3
    (fun _ => AttemptResult.timeoutE) (by decide) (fun j _ => by rfl), ?_⟩
  exact (retry_abort_and_exhaustion.2.2.1 (fun _ => AttemptResult.httpStatus 404) rfl).1

theorem retryFrom_waits (nr : Nat → Bool) (base : Nat) (f : Nat → AttemptResult)
    (maxA : Nat) :
    ∀ (r i : Nat) (last : Option AttemptResult),
      (retryFrom nr base f maxA r i last).waits =
        ((List.range' i (retryFrom nr base f maxA r i last).invocations).filter
          (fun j => decide (0 < j))).map (fun j => base * 2 ^ j) := by
  intro r
  induction r with
  | zero => intro i last; simp [retryFrom]
  | succ r ih =>
      intro i last
      have hsing : ∀ inv : Nat,
          ((List.range' i (inv + 1)).filter (fun j => decide (0 < j))).map
            (fun j => base * 2 ^ j) =
          (if 0 < i then [base * 2 ^ i] else []) ++
            ((List.range' (i + 1) inv).filter (fun j => decide (0 < j))).map
              (fun j => base * 2 ^ j) := by
        intro inv
        rw [List.range'_succ i inv 1, List.filter_cons]
        by_cases hi : 0 < i
        · simp [hi]
        · simp [hi]
      cases hfi : f i with
      | ok =>
          simp only [retryFrom, hfi]
          rw [hsing 0]
          simp [List.range']
      | timeoutE =>
          simp only [retryFrom, hfi]
          rw [hsing, ih (i + 1) (some AttemptResult.timeoutE)]
      | httpStatus c =>
          by_cases hnr : nr c = true
          · simp only [retryFrom, hfi, hnr, if_true]
            rw [hsing 0]
            simp [List.range']
          · rw [Bool.not_eq_true] at hnr
            simp only [retryFrom, hfi, hnr, Bool.false_eq_true, if_false]
            rw [hsing, ih (i + 1) (some (AttemptResult.httpStatus c))]
      | otherExc =>
          simp only [retryFrom, hfi]
          rw [hsing, ih (i + 1) (some AttemptResult.otherExc)]

theorem range_filter_pos_eq_drop (n : Nat) :
    (List.range n).filter (fun j => decide (0 < j)) = (List.range n).drop 1 := by
  cases n with
  | zero => rfl
  | succ m =>
      rw [List.range_eq_range', List.range'_succ 0 m 1]
      simp only [List.filter_cons, List.drop_succ_cons, List.drop_zero]
      rw [if_neg (by simp)]
      rw [List.filter_eq_self.mpr]
      intro j hj
      have := (List.mem_range'_1.mp hj).1
      simpa using this

/-- C7: in every retry-wrapper run, the waits inserted are, in order,
`base_delay * 2^i` seconds for each executed attempt `i ≥ 1`, and no
wait is inserted before attempt 0 — for the two concrete wrappers with
`base_delay = 2` (Gemini) and `base_delay = 1` (webhook proxy) as well
as for any loop parameters. -/
theorem retry_backoff_schedule (nr : Nat → Bool) (base maxA max_retries : Nat)
    (f : Nat → AttemptResult) :
    (retryRun nr base maxA f).waits =
      ((List.range (retryRun nr base maxA f).invocations).drop 1).map
        (fun i => base * 2 ^ i) ∧
    (call_gemini_with_retry f).waits =
      ((List.range (call_gemini_with_retry f).invocations).drop 1).map
        (fun i => 2 * 2 ^ i) ∧
    (forward_webhook_with_retry max_retries f).waits =
      ((List.range (forward_webhook_with_retry max_retries f).invocations).drop 1).map
        (fun i => 1 * 2 ^ i) := by
  have key : ∀ (nr0 : Nat → Bool) (b m : Nat),
      (retryRun nr0 b m f).waits =
        ((List.range (retryRun nr0 b m f).invocations).drop 1).map (fun i => b * 2 ^ i) := by
    intro nr0 b m
    have h := retryFrom_waits nr0 b f m m 0 none
    rw [retryRun, h, ← List.range_eq_range', range_filter_pos_eq_drop]
  exact ⟨key nr base maxA, key nonRetryableGemini 2 3, key nonRetryableProxy 1 max_retries⟩

end Asistente
